import Mathlib

/-!
Verification development for the SmartCalc line-evaluation pipeline
(`libsmartcalc`).  Rust sources are shallowly embedded: `f64` is idealized
as an exact value adjoined with the IEEE special values (`FP` below), the
`chrono` `Duration` is its signed number of seconds, `NaiveTime` is the
number of seconds from midnight, and `NaiveDate` is a proleptic-Gregorian
calendar date.  Shared-mutable variable cells are embedded by their
dereferenced contents (a `Variable` node carries the value its cell holds
at read time); the assignment statement and cross-line cell mutation play
no role in the properties treated here and are left out of the embedded
AST.  Rust `i64`/`u32` arithmetic is embedded on `Int`/`Nat` (`Int.tdiv`
is Rust's truncating `/` on `i64`).
-/

namespace SmartCalc

/-- FP idealizes Rust `f64`: a finite value is an exact rational, and the
special values NaN and the two infinities are adjoined.  Rounding is not
modelled; the claims treated here only involve exactly representable
computations and the special-value structure.  Signed zero is not
modelled. -/
inductive FP where
  | fin (q : ℚ)
  | posInf
  | negInf
  | nan
deriving DecidableEq, Repr

namespace FP

/-- True on NaN, mirroring `f64::is_nan`. -/
def isNan : FP → Bool
  | .nan => true
  | _ => false

/-- True on the two infinities, mirroring `f64::is_infinite`. -/
def isInfinite : FP → Bool
  | .posInf => true
  | .negInf => true
  | _ => false

/-- Addition on the idealized `f64`. -/
def add : FP → FP → FP
  | .fin a, .fin b => .fin (a + b)
  | .nan, _ => .nan
  | _, .nan => .nan
  | .posInf, .negInf => .nan
  | .negInf, .posInf => .nan
  | .posInf, _ => .posInf
  | _, .posInf => .posInf
  | .negInf, _ => .negInf
  | _, .negInf => .negInf

/-- Subtraction on the idealized `f64`. -/
def sub : FP → FP → FP
  | .fin a, .fin b => .fin (a - b)
  | .nan, _ => .nan
  | _, .nan => .nan
  | .posInf, .posInf => .nan
  | .negInf, .negInf => .nan
  | .posInf, _ => .posInf
  | _, .negInf => .posInf
  | .negInf, _ => .negInf
  | _, .posInf => .negInf

/-- Multiplication on the idealized `f64`. -/
def mul : FP → FP → FP
  | .fin a, .fin b => .fin (a * b)
  | .nan, _ => .nan
  | _, .nan => .nan
  | .posInf, .posInf => .posInf
  | .posInf, .negInf => .negInf
  | .negInf, .posInf => .negInf
  | .negInf, .negInf => .posInf
  | .posInf, .fin b => if b = 0 then .nan else if 0 < b then .posInf else .negInf
  | .fin a, .posInf => if a = 0 then .nan else if 0 < a then .posInf else .negInf
  | .negInf, .fin b => if b = 0 then .nan else if 0 < b then .negInf else .posInf
  | .fin a, .negInf => if a = 0 then .nan else if 0 < a then .negInf else .posInf

/-- Division on the idealized `f64`: division of a nonzero finite value by
zero produces a signed infinity and `0.0 / 0.0` produces NaN, as in IEEE
754 (signed zero is collapsed, so the sign of the infinity comes from the
dividend alone). -/
def div : FP → FP → FP
  | .fin a, .fin b =>
      if b = 0 then (if a = 0 then .nan else if 0 < a then .posInf else .negInf)
      else .fin (a / b)
  | .nan, _ => .nan
  | _, .nan => .nan
  | .posInf, .posInf => .nan
  | .posInf, .negInf => .nan
  | .negInf, .posInf => .nan
  | .negInf, .negInf => .nan
  | .posInf, .fin b => if 0 ≤ b then .posInf else .negInf
  | .negInf, .fin b => if 0 ≤ b then .negInf else .posInf
  | .fin _, .posInf => .fin 0
  | .fin _, .negInf => .fin 0

end FP

/-- Modelled from the spec: the formatter module (not under `src/`)
defines the canonical second counts named in the glossary, with
`month = 30` days and `year = 365` days. -/
def MINUTE : Nat := 60

/-- Modelled from the spec: seconds per hour (formatter constant). -/
def HOUR : Nat := 3600

/-- Modelled from the spec: seconds per day (formatter constant). -/
def DAY : Nat := 86400

/-- Modelled from the spec: seconds per week (formatter constant;
`"5 weeks as seconds"` evaluates to `3024000 = 5 * 604800`). -/
def WEEK : Nat := 604800

/-- Modelled from the spec: seconds per month, `30` days (formatter
constant). -/
def MONTH : Nat := 2592000

/-- Modelled from the spec: seconds per year, `365` days (formatter
constant). -/
def YEAR : Nat := 31536000

/-- A proleptic Gregorian calendar date, embedding `chrono::NaiveDate`. -/
structure NaiveDate where
  year : Int
  month : Nat
  day : Nat
deriving DecidableEq, Repr

/-- Gregorian leap-year test. -/
def isLeap (y : Int) : Bool :=
  y % 4 = 0 && (y % 100 ≠ 0 || y % 400 = 0)

/-- Number of days in a month of a given year. -/
def daysInMonth (y : Int) (m : Nat) : Nat :=
  match m with
  | 1 => 31 | 2 => if isLeap y then 29 else 28 | 3 => 31 | 4 => 30
  | 5 => 31 | 6 => 30 | 7 => 31 | 8 => 31
  | 9 => 30 | 10 => 31 | 11 => 30 | 12 => 31
  | _ => 0

/-- `chrono::NaiveDate::from_ymd`, which panics on an invalid
year/month/day combination; the panic is embedded as `none`. -/
def from_ymd (y : Int) (m d : Nat) : Option NaiveDate :=
  if 1 ≤ m ∧ m ≤ 12 ∧ 1 ≤ d ∧ d ≤ daysInMonth y m then some ⟨y, m, d⟩ else none

/-- Days since 1970-01-01 of a date (civil-from-days inverse, standard
integer algorithm; all divisions operate on nonnegative values). -/
def toDays (dt : NaiveDate) : Int :=
  let y : Int := if dt.month ≤ 2 then dt.year - 1 else dt.year
  let era : Int := y.ediv 400
  let yoe : Int := y - era * 400
  let mp : Int := if 2 < dt.month then (dt.month : Int) - 3 else (dt.month : Int) + 9
  let doy : Int := (153 * mp + 2).ediv 5 + (dt.day : Int) - 1
  let doe : Int := yoe * 365 + yoe.ediv 4 - yoe.ediv 100 + doy
  era * 146097 + doe - 719468

/-- The date a given number of days after 1970-01-01 (days-to-civil,
standard integer algorithm). -/
def fromDays (z0 : Int) : NaiveDate :=
  let z : Int := z0 + 719468
  let era : Int := z.ediv 146097
  let doe : Int := z - era * 146097
  let yoe : Int := (doe - doe.ediv 1460 + doe.ediv 36524 - doe.ediv 146096).ediv 365
  let y : Int := yoe + era * 400
  let doy : Int := doe - (365 * yoe + yoe.ediv 4 - yoe.ediv 100)
  let mp : Int := (5 * doy + 2).ediv 153
  let d : Int := doy - (153 * mp + 2).ediv 5 + 1
  let m : Int := if mp < 10 then mp + 3 else mp - 9
  ⟨if m ≤ 2 then y + 1 else y, m.toNat, d.toNat⟩

/-- `chrono`'s `NaiveDate + Duration` adds the duration's whole number of
days (`Duration::num_days`, i64 division truncating toward zero). -/
def dateAddSeconds (dt : NaiveDate) (secs : Int) : NaiveDate :=
  fromDays (toDays dt + secs.tdiv 86400)

/-- `chrono`'s `NaiveTime` addition of a signed number of seconds wraps
modulo 24 hours; a time is its number of seconds from midnight. -/
def timeAddSeconds (t : Nat) (secs : Int) : Nat :=
  (((t : Int) + secs).emod 86400).toNat

/-- The embedded `BramaAstType` (`types.rs`).  A `Money`'s currency is its
canonical code string (the `CurrencyInfo` handle).  A `Variable` node
carries the contents its shared cell holds when the interpreter reads it;
`Assignment` (cell mutation) is outside the properties treated here. -/
inductive BramaAstType where
  | None
  | Number (v : FP)
  | Percent (v : FP)
  | Money (price : FP) (currency : String)
  | Time (t : Nat)
  | Date (d : NaiveDate)
  | Duration (seconds : Int)
  | Month (m : Nat)
  | Variable (data : BramaAstType)
  | Binary (left : BramaAstType) (operator : Char) (right : BramaAstType)
  | PrefixUnary (operator : Char) (ast : BramaAstType)
deriving DecidableEq, Repr

/-- The immutable configuration consumed by the interpreter: the FX rate
table, `currency_rate[code] → f64`. -/
structure SmartCalcConfig where
  rate : String → FP

/-- A money value as passed around by `tools.rs` (`Money(f64, currency)`),
with `get_price`/`get_currency` being the two fields. -/
structure MoneyVal where
  price : FP
  currency : String
deriving Repr

namespace Interpreter

open BramaAstType

/-- `Interpreter::detect_target_currency`: the right operand's currency
(one variable dereference allowed) if it has one, else the left's. -/
def detect_target_currency (left right : BramaAstType) : Option String :=
  let left_currency :=
    match left with
    | Money _ currency => some currency
    | Variable (Money _ currency) => some currency
    | _ => none
  let right_currency :=
    match right with
    | Money _ currency => some currency
    | Variable (Money _ currency) => some currency
    | _ => none
  match left_currency, right_currency with
  | some _, some r => some r
  | none, some r => some r
  | some l, none => some l
  | _, _ => none

/-- `Interpreter::get_first_percent`. -/
def get_first_percent (left right : BramaAstType) : Option FP :=
  match left with
  | Percent percent => some percent
  | Variable (Percent percent) => some percent
  | _ =>
    match right with
    | Percent percent => some percent
    | Variable (Percent percent) => some percent
    | _ => none

/-- `Interpreter::get_first_money` (the price of the first money operand). -/
def get_first_money (left right : BramaAstType) : Option FP :=
  match left with
  | Money money _ => some money
  | Variable (Money money _) => some money
  | _ =>
    match right with
    | Money money _ => some money
    | Variable (Money money _) => some money
    | _ => none

/-- `Interpreter::get_first_number`. -/
def get_first_number (left right : BramaAstType) : Option FP :=
  match left with
  | Number number => some number
  | Variable (Number number) => some number
  | _ =>
    match right with
    | Number number => some number
    | Variable (Number number) => some number
    | _ => none

/-- `Interpreter::get_moneys`. -/
def get_moneys (left right : BramaAstType) : Option (MoneyVal × MoneyVal) :=
  match left with
  | Money price currency =>
    (match right with
     | Money p c => some (⟨price, currency⟩, ⟨p, c⟩)
     | Variable (Money p c) => some (⟨price, currency⟩, ⟨p, c⟩)
     | _ => none)
  | Variable (Money price currency) =>
    (match right with
     | Money p c => some (⟨price, currency⟩, ⟨p, c⟩)
     | Variable (Money p c) => some (⟨price, currency⟩, ⟨p, c⟩)
     | _ => none)
  | _ => none

/-- `Interpreter::get_high_duration_number`: the count of the largest time
unit fitting the duration's absolute number of seconds. -/
def get_high_duration_number (duration : Int) : Nat :=
  let duration_info := duration.natAbs
  if YEAR ≤ duration_info then duration_info / YEAR
  else if MONTH ≤ duration_info then (duration_info / MONTH) % 30
  else if DAY ≤ duration_info then duration_info / DAY
  else if HOUR ≤ duration_info then (duration_info / HOUR) % 24
  else if MINUTE ≤ duration_info then (duration_info / MINUTE) % 60
  else duration_info

/-- `Interpreter::get_numbers`: both operands read as plain numbers
(a money contributes its price, a percent its magnitude, a duration its
`get_high_duration_number` cast to `f64`). -/
def get_numbers (left right : BramaAstType) : Option (FP × FP) :=
  let read : BramaAstType → Option FP := fun ast =>
    match ast with
    | Number number => some number
    | Money price _ => some price
    | Percent percent => some percent
    | Duration duration => some (.fin (get_high_duration_number duration : ℚ))
    | Variable (Number number) => some number
    | Variable (Money price _) => some price
    | Variable (Percent percent) => some percent
    | Variable (Duration duration) => some (.fin (get_high_duration_number duration : ℚ))
    | _ => none
  match read left with
  | none => none
  | some left_number =>
    match read right with
    | none => none
    | some right_number => some (left_number, right_number)

/-- `Interpreter::get_duration`. -/
def get_duration (ast : BramaAstType) : Option Int :=
  match ast with
  | Duration duration => some duration
  | Variable (Duration duration) => some duration
  | _ => none

/-- `Interpreter::duration_to_time`: the absolute number of seconds folded
into an `hh:mm:ss` wall-clock time, hours wrapping modulo 24. -/
def duration_to_time (duration : Int) : Nat :=
  let d0 := duration.natAbs
  let hours := if HOUR ≤ d0 then (d0 / HOUR) % 24 else 0
  let d1 := if HOUR ≤ d0 then d0 % HOUR else d0
  let minutes := if MINUTE ≤ d1 then (d1 / MINUTE) % 60 else 0
  let d2 := if MINUTE ≤ d1 then d1 % MINUTE else d1
  hours * 3600 + minutes * 60 + d2

/-- `Interpreter::get_month_from_duration`. -/
def get_month_from_duration (duration : Int) : Nat :=
  duration.natAbs / MONTH

/-- `Interpreter::get_year_from_duration`. -/
def get_year_from_duration (duration : Int) : Nat :=
  duration.natAbs / YEAR

/-- `Interpreter::get_durations`. -/
def get_durations (left right : BramaAstType) : Option (Int × Int) :=
  match get_duration left with
  | none => none
  | some l =>
    match get_duration right with
    | none => none
    | some r => some (l, r)

/-- `Interpreter::get_date`. -/
def get_date (ast : BramaAstType) : Option NaiveDate :=
  match ast with
  | Date date => some date
  | Variable (Date date) => some date
  | _ => none

/-- `Interpreter::get_times`: the left operand as a time, the right
operand as a time measured from midnight together with the flag recording
whether the original right duration was negative. -/
def get_times (left right : BramaAstType) : Option (Nat × Nat × Bool) :=
  let left_time :=
    match left with
    | Time time => some time
    | Duration duration => some (duration_to_time duration)
    | Variable (Time time) => some time
    | Variable (Duration duration) => some (duration_to_time duration)
    | _ => none
  match left_time with
  | none => none
  | some lt =>
    let right_time :=
      match right with
      | Time time => some (time, false)
      | Duration duration => some (duration_to_time duration, decide (duration < 0))
      | Variable (Time time) => some (time, false)
      | Variable (Duration duration) => some (duration_to_time duration, decide (duration < 0))
      | _ => none
    match right_time with
    | none => none
    | some (rt, is_negative) => some (lt, rt, is_negative)

/-- `Interpreter::do_divition`: an infinite or NaN quotient is silenced to
zero. -/
def do_divition (left right : FP) : FP :=
  let calculation := left.div right
  if calculation.isInfinite || calculation.isNan then .fin 0 else calculation

/-- `Interpreter::calculate_number`: percent arithmetic when one operand
is a percent, ordinary arithmetic otherwise. -/
def calculate_number (operator : Char) (left right : BramaAstType) :
    Except String BramaAstType :=
  match get_first_percent left right with
  | some percent =>
    (match get_first_number left right with
     | none => .error "Number information not valid"
     | some number =>
       match operator with
       | '+' => .ok (Number (number.add ((number.mul percent).div (.fin 100))))
       | '-' => .ok (Number (number.sub ((number.mul percent).div (.fin 100))))
       | '*' => .ok (Number (number.mul ((number.mul percent).div (.fin 100))))
       | '/' => .ok (Number (do_divition number (do_divition (number.mul percent) (.fin 100))))
       | _ => .error s!"Unknown operator. ({operator})")
  | none =>
    match get_numbers left right with
    | some (left_number, right_number) =>
      (match operator with
       | '+' => .ok (Number (left_number.add right_number))
       | '-' => .ok (Number (left_number.sub right_number))
       | '/' => .ok (Number (do_divition left_number right_number))
       | '*' => .ok (Number (left_number.mul right_number))
       | _ => .error s!"Unknown operator. ({operator})")
    | none => .error "Unknown calculation"

/-- `Interpreter::calculate_date`, `'+'` month stage: month carry
`(month + n) / 12` into the year and new month `(month + n) % 12`. -/
def date_add_months (date : NaiveDate) (n : Nat) : Option NaiveDate :=
  let years_diff := (date.month + n) / 12
  let month := (date.month + n) % 12
  from_ymd (date.year + (years_diff : Int)) month date.day

/-- `Interpreter::calculate_date`, `'-'` month stage: subtract
`n % 12` months with a year borrow when the month underflows zero. -/
def date_sub_months (date : NaiveDate) (n : Nat) : Option NaiveDate :=
  let years : Int := date.year - ((n : Int).tdiv 12)
  let months0 : Int := (date.month : Int) - ((n : Int).tmod 12)
  let months : Int := if months0 < 0 then months0 + 12 else months0
  from_ymd years months.toNat date.day

/-- `Interpreter::calculate_date`.  `chrono`'s panicking `from_ymd` is
embedded as `none` on the outside `Option`. -/
def calculate_date (operator : Char) (left right : BramaAstType) :
    Option (Except String BramaAstType) :=
  match get_date left, get_duration right with
  | some date, some duration =>
    (match operator with
     | '+' =>
       let step1 : Option (NaiveDate × Int) :=
         match get_year_from_duration duration with
         | 0 => some (date, duration)
         | n => (from_ymd (date.year + (n : Int)) date.month date.day).map
                  (fun d2 => (d2, duration - (YEAR : Int) * (n : Int)))
       match step1 with
       | none => none
       | some (date1, dur1) =>
         let step2 : Option (NaiveDate × Int) :=
           match get_month_from_duration dur1 with
           | 0 => some (date1, dur1)
           | n => (date_add_months date1 n).map
                    (fun d2 => (d2, dur1 - (MONTH : Int) * (n : Int)))
         match step2 with
         | none => none
         | some (date2, dur2) => some (.ok (Date (dateAddSeconds date2 dur2)))
     | '-' =>
       let step1 : Option (NaiveDate × Int) :=
         match get_year_from_duration duration with
         | 0 => some (date, duration)
         | n => (from_ymd (date.year - (n : Int)) date.month date.day).map
                  (fun d2 => (d2, duration - (YEAR : Int) * (n : Int)))
       match step1 with
       | none => none
       | some (date1, dur1) =>
         let step2 : Option (NaiveDate × Int) :=
           match get_month_from_duration dur1 with
           | 0 => some (date1, dur1)
           | n => (date_sub_months date1 n).map
                    (fun d2 => (d2, dur1 - (MONTH : Int) * (n : Int)))
         match step2 with
         | none => none
         | some (date2, dur2) => some (.ok (Date (dateAddSeconds date2 (-dur2))))
     | _ => some (.error s!"Unknown operator. ({operator})"))
  | _, _ => some (.error s!"Unknown operator. ({operator})")

/-- `Interpreter::calculate_time`: the right time is re-measured from
midnight; when the original right duration was negative it is subtracted
regardless of the operator. -/
def calculate_time (operator : Char) (left right : BramaAstType) :
    Except String BramaAstType :=
  match get_times left right with
  | some (left_time, right_time, is_negative) =>
    let calculated_right : Int := (right_time : Int)
    if is_negative then .ok (Time (timeAddSeconds left_time (-calculated_right)))
    else
      match operator with
      | '+' => .ok (Time (timeAddSeconds left_time calculated_right))
      | '-' => .ok (Time (timeAddSeconds left_time (-calculated_right)))
      | _ => .error s!"Unknown operator. ({operator})"
  | none => .error s!"Unknown operator. ({operator})"

/-- `Interpreter::calculate_duration`. -/
def calculate_duration (operator : Char) (left right : BramaAstType) :
    Except String BramaAstType :=
  match get_durations left right with
  | some (left_time, right_time) =>
    (match operator with
     | '+' => .ok (Duration (left_time + right_time))
     | '-' => .ok (Duration (left_time - right_time))
     | _ => .error s!"Unknown operator. ({operator})")
  | none => .error s!"Unknown operator. ({operator})"

/-- Modelled from the spec: `tools::convert_currency` (not under `src/`)
converts the left money into the right operand's currency using the FX
table, `rate(from) / rate(to)` applied to the stored price. -/
def convert_currency (config : SmartCalcConfig) (left right : MoneyVal) : FP :=
  left.price.mul ((config.rate left.currency).div (config.rate right.currency))

/-- `Interpreter::calculate_money`: percent arithmetic first, then the
money-money path (left price converted into the right currency), then the
plain-number fallback tagged with the detected target currency. -/
def calculate_money (config : SmartCalcConfig) (operator : Char)
    (left right : BramaAstType) : Except String BramaAstType :=
  match detect_target_currency left right with
  | none => .error "Currency information not valid"
  | some to_currency =>
    match get_first_percent left right with
    | some percent =>
      (match get_first_money left right with
       | none => .error "Price information not valid"
       | some price =>
         match operator with
         | '+' => .ok (Money (price.add ((price.mul percent).div (.fin 100))) to_currency)
         | '-' => .ok (Money (price.sub ((price.mul percent).div (.fin 100))) to_currency)
         | '*' => .ok (Money (price.mul ((price.mul percent).div (.fin 100))) to_currency)
         | '/' => .ok (Money (do_divition price (do_divition (price.mul percent) (.fin 100))) to_currency)
         | _ => .error s!"Unknown operator. ({operator})")
    | none =>
      match get_moneys left right with
      | some (l, r) =>
        let left_price := convert_currency config l r
        (match operator with
         | '+' => .ok (Money (left_price.add r.price) r.currency)
         | '-' => .ok (Money (left_price.sub r.price) r.currency)
         | '/' => .ok (Money (do_divition left_price r.price) r.currency)
         | '*' => .ok (Money (left_price.mul r.price) r.currency)
         | _ => .error s!"Unknown operator. ({operator})")
      | none =>
        match get_numbers left right with
        | some (left_number, right_number) =>
          (match operator with
           | '+' => .ok (Money (left_number.add right_number) to_currency)
           | '-' => .ok (Money (left_number.sub right_number) to_currency)
           | '/' => .ok (Money (do_divition left_number right_number) to_currency)
           | '*' => .ok (Money (left_number.mul right_number) to_currency)
           | _ => .error s!"Unknown operator. ({operator})")
        | none => .error "Unknown calculation"

/-- The operand-type dispatch of `Interpreter::executer_binary` on two
already-computed values: Money before Date before Time before Duration
before Number. -/
def binary_dispatch (config : SmartCalcConfig) (operator : Char)
    (computed_left computed_right : BramaAstType) :
    Option (Except String BramaAstType) :=
  match computed_left, computed_right with
  | Money _ _, _ => some (calculate_money config operator computed_left computed_right)
  | _, Money _ _ => some (calculate_money config operator computed_left computed_right)
  | Date _, _ => calculate_date operator computed_left computed_right
  | _, Date _ => calculate_date operator computed_left computed_right
  | Time _, _ => some (calculate_time operator computed_left computed_right)
  | _, Time _ => some (calculate_time operator computed_left computed_right)
  | Duration _, _ => some (calculate_duration operator computed_left computed_right)
  | _, Duration _ => some (calculate_duration operator computed_left computed_right)
  | Number _, _ => some (calculate_number operator computed_left computed_right)
  | _, Number _ => some (calculate_number operator computed_left computed_right)
  | _, _ => some (.error "Uknown calculation result")

/-- `Interpreter::executer_unary`. -/
def executer_unary (operator : Char) (computed : BramaAstType) :
    Except String BramaAstType :=
  match operator with
  | '+' => .ok computed
  | '-' =>
    (match computed with
     | Money money currency => .ok (Money (money.mul (.fin (-1))) currency)
     | Percent percent => .ok (Percent (percent.mul (.fin (-1))))
     | Number number => .ok (Number (number.mul (.fin (-1))))
     | _ => .error "Syntax error")
  | _ => .error "Syntax error"

/-- `Interpreter::execute_ast`: evaluate bottom-up; a `Variable` reads its
cell, value nodes evaluate to themselves.  The `Option` layer carries the
`chrono` date-construction panic. -/
def execute_ast (config : SmartCalcConfig) :
    BramaAstType → Option (Except String BramaAstType)
  | .Binary left operator right =>
    (match execute_ast config left with
     | none => none
     | some (.error e) => some (.error e)
     | some (.ok computed_left) =>
       match execute_ast config right with
       | none => none
       | some (.error e) => some (.error e)
       | some (.ok computed_right) =>
         binary_dispatch config operator computed_left computed_right)
  | .PrefixUnary operator ast =>
    (match execute_ast config ast with
     | none => none
     | some (.error e) => some (.error e)
     | some (.ok computed) => some (executer_unary operator computed))
  | .Variable data => some (.ok data)
  | .None => some (.ok .None)
  | ast => some (.ok ast)

end Interpreter

/-- The embedded `TokenType` (`types.rs`).  The `Field` payload (a rule
pattern placeholder) is abstracted to its name, and a `Variable` carries
the referenced cell's contents, as in `BramaAstType`. -/
inductive TokenType where
  | Number (v : FP)
  | Percent (v : FP)
  | Money (price : FP) (currency : String)
  | Time (t : Nat)
  | Date (d : NaiveDate)
  | Duration (seconds : Int)
  | Month (m : Nat)
  | Timezone (name : String) (offset : Int)
  | Operator (ch : Char)
  | Text (s : String)
  | Whitespace
  | Field (name : String)
  | Variable (data : BramaAstType)
deriving DecidableEq, Repr

namespace Tokinizer

/-- `TokenLocationStatus` (`tokinizer/mod.rs`). -/
inductive TokenLocationStatus where
  | Active
  | Removed
deriving DecidableEq, Repr

/-- `TokenLocation` (`tokinizer/mod.rs`); the Rust field `end` is named
`stop` here because `end` is reserved in Lean. -/
structure TokenLocation where
  start : Nat
  stop : Nat
  token_type : Option TokenType
  original_text : String
  status : TokenLocationStatus
deriving DecidableEq, Repr

/-- `Tokinizer::add_token_location`: the insertion is refused when any
stored span covers the new span's start (`item.start ≤ start < item.end`)
or its end (`item.start < end ≤ item.end`); otherwise the location is
appended as `Active`.  Returns the acceptance flag with the new list. -/
def add_token_location (locs : List TokenLocation) (start stop : Nat)
    (token_type : Option TokenType) (text : String) :
    Bool × List TokenLocation :=
  if locs.any (fun item =>
      (item.start ≤ start && start < item.stop) ||
      (item.start < stop && stop ≤ item.stop)) then
    (false, locs)
  else
    (true, locs ++ [⟨start, stop, token_type, text, .Active⟩])

/-- Replay a sequence of insertion requests through
`add_token_location`, starting from an empty location list. -/
def run_insertions (reqs : List (Nat × Nat × Option TokenType × String)) :
    List TokenLocation :=
  reqs.foldl (fun locs r => (add_token_location locs r.1 r.2.1 r.2.2.1 r.2.2.2).2) []

/-- The `start`-comparison `sort_by` uses in `tokinize_with_regex`. -/
def startLE (a b : TokenLocation) : Prop := a.start ≤ b.start

instance : DecidableRel startLE := fun a b => Nat.decLe a.start b.start

instance : IsTotal TokenLocation startLE := ⟨fun a b => Nat.le_total a.start b.start⟩

instance : IsTrans TokenLocation startLE := ⟨fun _ _ _ => Nat.le_trans⟩

/-- The tail of `Tokinizer::tokinize_with_regex`: locations whose
`token_type` is `None` are discarded and the rest are stably sorted by
`start` (Rust's stable `sort_by`, embedded as insertion sort). -/
def tokinize_finalize (locs : List TokenLocation) : List TokenLocation :=
  (locs.filter (fun x => x.token_type.isSome)).insertionSort startLE

/-- A rule-pattern token of `apply_rules`, abstracted to its acceptance
test on a token location (the source decides acceptance through
`Token::variable_compare` or the custom `PartialEq`, both defined in
`types.rs`). -/
abbrev RuleTok := TokenLocation → Bool

/-- The matching loop of `Tokinizer::apply_rules` over the location list:
`Removed` locations and locations without a `token_type` are skipped, a
mismatch resets the pattern index and restarts one position further, and
a complete match returns the half-open index range it covered. -/
def match_loop (pattern : List RuleTok) :
    List TokenLocation → Nat → Nat → Nat → Option (Nat × Nat)
  | [], _, _, _ => none
  | tok :: rest, target, ruleIdx, startIdx =>
    if tok.status = .Removed then
      match_loop pattern rest (target + 1) ruleIdx startIdx
    else
      match tok.token_type with
      | none => match_loop pattern rest (target + 1) ruleIdx startIdx
      | some _ =>
        match pattern.get? ruleIdx with
        | none => none
        | some rt =>
          if rt tok then
            if pattern.length = ruleIdx + 1 then some (startIdx, target + 1)
            else match_loop pattern rest (target + 1) (ruleIdx + 1) startIdx
          else match_loop pattern rest (target + 1) 0 (target + 1)

/-- One scan of a rule pattern over the whole location list, as
`apply_rules` performs it. -/
def try_rule (locs : List TokenLocation) (pattern : List RuleTok) :
    Option (Nat × Nat) :=
  match_loop pattern locs 0 0 0

/-- The `for index in start..target` loop of `apply_rules` that flags the
matched range `Removed`. -/
def mark_range : List TokenLocation → Nat → Nat → List TokenLocation
  | [], _, _ => []
  | l :: ls, s, t =>
    if s = 0 then
      (if 0 < t then { l with status := .Removed } else l) :: mark_range ls 0 (t - 1)
    else l :: mark_range ls (s - 1) (t - 1)

/-- The effect of one rule firing in `apply_rules`: the matched range is
flagged `Removed` and one fresh `Active` location spanning the replaced
text is inserted at the range's start index. -/
def fire_rule (locs : List TokenLocation) (s t : Nat) (newType : TokenType) :
    List TokenLocation :=
  let text_start_position := ((locs.get? s).map (fun l => l.start)).getD 0
  let text_end_position := ((locs.get? (t - 1)).map (fun l => l.stop)).getD 0
  (mark_range locs s t).insertIdx s
    ⟨text_start_position, text_end_position, some newType, "", .Active⟩

/-- The number of `Active` locations. -/
def countActive (locs : List TokenLocation) : Nat :=
  locs.countP (fun l => decide (l.status = .Active))

/-- The number of `Active` locations with index in the half-open range
`[s, t)`. -/
def countActiveIn : List TokenLocation → Nat → Nat → Nat
  | [], _, _ => 0
  | l :: ls, s, t =>
    (if s = 0 ∧ 0 < t ∧ l.status = .Active then 1 else 0) + countActiveIn ls (s - 1) (t - 1)

/-- Two spans are disjoint or one strictly contains the other — the
pairwise shape `add_token_location`'s collision rule actually maintains. -/
def span_ok (a b : TokenLocation) : Prop :=
  a.stop ≤ b.start ∨ b.stop ≤ a.start ∨
  (a.start < b.start ∧ b.stop < a.stop) ∨ (b.start < a.start ∧ a.stop < b.stop)

end Tokinizer

namespace Executer

/-- The executer's `Token` (`types.rs`); the Rust field `end` is named
`stop` here. -/
structure Token where
  start : Nat
  stop : Nat
  token : TokenType
  is_temp : Bool
deriving DecidableEq, Repr

/-- The index right after the first `Operator('=')`, `0` when there is
none — the prologue shared by `token_cleaner` and `missing_token_adder`. -/
def eqIndex (tokens : List Token) : Nat :=
  match tokens.findIdx? (fun t => decide (t.token = TokenType.Operator '=')) with
  | some token_index => token_index + 1
  | none => 0

/-- `token_cleaner`: from the position after the first `=` on, every
`Text` token is dropped. -/
def token_cleaner (tokens : List Token) : List Token :=
  let index := eqIndex tokens
  tokens.take index ++ (tokens.drop index).filter (fun t =>
    match t.token with
    | TokenType.Text _ => false
    | _ => true)

/-- The temporary `Number(0.0)` token `missing_token_adder` inserts. -/
def zeroToken : Token := ⟨0, 1, TokenType.Number (.fin 0), true⟩

/-- The temporary `Operator('+')` token `missing_token_adder` inserts. -/
def plusToken : Token := ⟨0, 1, TokenType.Operator '+', true⟩

/-- True on `Operator` tokens. -/
def isOperator : TokenType → Bool
  | TokenType.Operator _ => true
  | _ => false

/-- The `while index < tokens.len()` loop of `missing_token_adder` on the
suffix it scans: at an operator it skips two positions; at a value it
inserts an implicit `Operator('+')` and skips two positions. -/
def adder_loop : List Token → List Token
  | [] => []
  | [t] => if isOperator t.token then [t] else plusToken :: [t]
  | t :: u :: rest2 =>
    if isOperator t.token then t :: u :: adder_loop rest2
    else plusToken :: t :: adder_loop (u :: rest2)

/-- `missing_token_adder` (`executer/mod.rs`): find the position after the
first `=`; bail out on short lists; insert `Number(0)` before a leading
operator; insert implicit `+` between adjacent values; and when the final
token is an operator, insert `Number(0)` at position `len - 1`, i.e.
immediately before that operator. -/
def missing_token_adder (tokens : List Token) : List Token :=
  let index := eqIndex tokens
  if tokens.length = 0 then tokens
  else if tokens.length ≤ index + 1 then tokens
  else
    let tokens1 :=
      match tokens[index]? with
      | some t => if isOperator t.token then tokens.insertIdx index zeroToken else tokens
      | none => tokens
    let tokens2 := tokens1.take (index + 1) ++ adder_loop (tokens1.drop (index + 1))
    match tokens2.getLast? with
    | some t =>
      if isOperator t.token then tokens2.insertIdx (tokens2.length - 1) zeroToken
      else tokens2
    | none => tokens2

/-- The line pipeline stages `execute` calls between tokenization and
parsing, supplied as opaque functions: `prepare_code`,
`Tokinizer::tokinize`, `Token::update_for_variable`,
`WorkerExecuter::process`, `SyntaxParser::parse` and
`Interpreter::execute` live outside the counting logic of `execute`
(their session-storage threading is irrelevant to it and elided). -/
structure Pipeline where
  prepare : String → String
  tokinize : String → Except String (List Token)
  update_for_variable : List Token → List Token
  process : List Token → List Token
  parse : List Token → Except String BramaAstType
  interpret : BramaAstType → Except String BramaAstType

/-- The per-line behaviour of `execute`: the results it pushes and the
ASTs it appends to `storage.asts`, in order.  An empty prepared line
pushes `Ok(([], None))` and stores `None`; a tokenizer error pushes the
error and stores `None`; a parse error pushes nothing and stores nothing
(the error is only printed); otherwise the parsed AST is stored and the
interpreter's verdict is pushed. -/
def line_outcome (p : Pipeline) (text : String) :
    List (Except String (List Token × BramaAstType)) × List BramaAstType :=
  let prepared_text := p.prepare text
  if prepared_text.length = 0 then
    ([.ok ([], BramaAstType.None)], [BramaAstType.None])
  else
    match p.tokinize prepared_text with
    | .ok tokens =>
      let tokens1 := p.update_for_variable tokens
      let original_tokens := tokens1
      let tokens2 := missing_token_adder (token_cleaner (p.process tokens1))
      (match p.parse tokens2 with
       | .ok ast =>
         (match p.interpret ast with
          | .ok result => ([.ok (original_tokens, result)], [ast])
          | .error e => ([.error e], [ast]))
       | .error _ => ([], []))
    | .error e => ([.error e], [BramaAstType.None])

/-- `execute` over the already-split lines of the input: per-line results
in line order, paired with the session's `asts` list. -/
def execute (p : Pipeline) :
    List String → List (Except String (List Token × BramaAstType)) × List BramaAstType
  | [] => ([], [])
  | text :: rest =>
    let this := line_outcome p text
    let others := execute p rest
    (this.1 ++ others.1, this.2 ++ others.2)

/-- True exactly on the lines that reach the parser and fail there — the
one branch of `execute` that pushes no result and stores no AST. -/
def parse_fails (p : Pipeline) (text : String) : Bool :=
  let prepared_text := p.prepare text
  if prepared_text.length = 0 then false
  else
    match p.tokinize prepared_text with
    | .ok tokens =>
      (match p.parse (missing_token_adder (token_cleaner (p.process (p.update_for_variable tokens)))) with
       | .ok _ => false
       | .error _ => true)
    | .error _ => false

end Executer

end SmartCalc

open SmartCalc SmartCalc.Interpreter SmartCalc.Tokinizer SmartCalc.Executer

section HelperLemmas

lemma fp_div_fin_of_ne (a b : ℚ) (hb : b ≠ 0) :
    FP.div (.fin a) (.fin b) = .fin (a / b) := by
  simp [FP.div, hb]

lemma do_divition_fin (a b : ℚ) :
    do_divition (.fin a) (.fin b) = .fin (a / b) := by
  unfold do_divition FP.div
  by_cases hb : b = 0
  · subst hb
    by_cases ha : a = 0
    · subst ha; simp [FP.isInfinite, FP.isNan]
    · by_cases ha2 : 0 < a <;> simp [ha, ha2, FP.isInfinite, FP.isNan]
  · simp [hb, FP.isInfinite, FP.isNan]

lemma do_divition_zero_right (a : FP) : do_divition a (.fin 0) = .fin 0 := by
  cases a with
  | fin q => rw [do_divition_fin]; simp
  | posInf => simp [do_divition, FP.div, FP.isInfinite]
  | negInf => simp [do_divition, FP.div, FP.isInfinite]
  | nan => simp [do_divition, FP.div, FP.isNan]

end HelperLemmas

/-- C1: on a binary evaluation with one `Percent(p)` operand and one
scalar `Number(n)` operand, `calculate_number` yields `n + n·p/100` for
`+`, `n − n·p/100` for `-`, `n · (n·p/100)` for `*` and `n / (n·p/100)`
for `/` (the last through the silenced division), in either operand
order; and the interpreter evaluates the parsed line
`"120 + 30% + 10%"` to `Number(171.6) = Number(858/5)`. -/
theorem C1_percent_arithmetic_pipeline :
    (∀ n p : ℚ,
      calculate_number '+' (.Number (.fin n)) (.Percent (.fin p))
          = .ok (.Number (.fin (n + n * p / 100))) ∧
      calculate_number '+' (.Percent (.fin p)) (.Number (.fin n))
          = .ok (.Number (.fin (n + n * p / 100))) ∧
      calculate_number '-' (.Number (.fin n)) (.Percent (.fin p))
          = .ok (.Number (.fin (n - n * p / 100))) ∧
      calculate_number '-' (.Percent (.fin p)) (.Number (.fin n))
          = .ok (.Number (.fin (n - n * p / 100))) ∧
      calculate_number '*' (.Number (.fin n)) (.Percent (.fin p))
          = .ok (.Number (.fin (n * (n * p / 100)))) ∧
      calculate_number '*' (.Percent (.fin p)) (.Number (.fin n))
          = .ok (.Number (.fin (n * (n * p / 100)))) ∧
      calculate_number '/' (.Number (.fin n)) (.Percent (.fin p))
          = .ok (.Number (.fin (n / (n * p / 100)))) ∧
      calculate_number '/' (.Percent (.fin p)) (.Number (.fin n))
          = .ok (.Number (.fin (n / (n * p / 100))))) ∧
    (∀ config : SmartCalcConfig,
      execute_ast config
        (.Binary (.Binary (.Number (.fin 120)) '+' (.Percent (.fin 30))) '+'
          (.Percent (.fin 10)))
        = some (.ok (.Number (.fin (858 / 5))))) := by
  have h100 : (100 : ℚ) ≠ 0 := by norm_num
  constructor
  · intro n p
    refine ⟨?_, ?_, ?_, ?_, ?_, ?_, ?_, ?_⟩ <;>
      simp [calculate_number, get_first_percent, get_first_number, FP.add, FP.sub,
        FP.mul, fp_div_fin_of_ne, h100, do_divition_fin]
  · intro config
    simp [Interpreter.execute_ast, binary_dispatch, calculate_number,
      get_first_percent, get_first_number, FP.add, FP.mul, fp_div_fin_of_ne, h100]
    norm_num

/-- C3: a division whose idealized `f64` quotient is NaN or an infinity
is silenced to `0` by `do_divition`; in particular `x / 0` evaluates to
`Number(0)` in the number handler and to `Money(0, currency)` in the
money handler (the result currency being the right operand's), `0 / 0`
evaluates to `0`, and a `/` against `Percent(0)` evaluates to `0`. -/
theorem C3_division_silenced :
    (∀ a b : FP, ((FP.div a b).isNan = true ∨ (FP.div a b).isInfinite = true) →
      do_divition a b = .fin 0) ∧
    (∀ x : ℚ, calculate_number '/' (.Number (.fin x)) (.Number (.fin 0))
        = .ok (.Number (.fin 0))) ∧
    (calculate_number '/' (.Number (.fin 0)) (.Number (.fin 0))
        = .ok (.Number (.fin 0))) ∧
    (∀ (config : SmartCalcConfig) (x : ℚ) (c c' : String),
      calculate_money config '/' (.Money (.fin x) c) (.Money (.fin 0) c')
        = .ok (.Money (.fin 0) c')) ∧
    (∀ x : ℚ, calculate_number '/' (.Number (.fin x)) (.Percent (.fin 0))
        = .ok (.Number (.fin 0))) := by
  refine ⟨?_, ?_, ?_, ?_, ?_⟩
  · intro a b h
    unfold do_divition
    rcases h with h | h <;> simp [h]
  · intro x
    simp [calculate_number, get_first_percent, get_numbers, do_divition_fin]
  · simp [calculate_number, get_first_percent, get_numbers, do_divition_fin]
  · intro config x c c'
    simp [calculate_money, detect_target_currency, get_first_percent, get_moneys,
      do_divition_zero_right]
  · intro x
    simp [calculate_number, get_first_percent, get_first_number, do_divition_fin,
      FP.mul]

/-- C3 witness: `1 / 0` is an infinity and `do_divition` silences it. -/
theorem C3_division_silenced_witness :
    ((FP.div (.fin 1) (.fin 0)).isNan = true ∨
      (FP.div (.fin 1) (.fin 0)).isInfinite = true) ∧
    do_divition (.fin 1) (.fin 0) = .fin 0 := by
  have h : (FP.div (.fin 1) (.fin 0)).isInfinite = true := by
    norm_num [FP.div, FP.isInfinite]
  exact ⟨Or.inr h, C3_division_silenced.1 (.fin 1) (.fin 0) (Or.inr h)⟩

/-- C5 counterexample: for the negative duration `-600` seconds the code
computes `11:40 op (-10 min) = 11:30` for both operators, while the claim
(`Time − Duration` subtracts the signed duration, so subtracting a
negative duration adds it) would give `11:40 − (−10 min) = 11:50 =
42600 s`. -/
theorem C5_negative_duration_counterexample :
    calculate_time '-' (.Time 42000) (.Duration (-600)) = .ok (.Time 41400) ∧
    ((42000 : Int) - (-600)).emod 86400 = 42600 ∧ (41400 : Nat) ≠ 42600 := by
  refine ⟨rfl, by decide, by decide⟩

/-- C5 amended: the right duration is re-measured from midnight through
`duration_to_time`; for a nonnegative duration `+` adds it and `-`
subtracts it modulo 24 hours, but for a negative duration the
magnitude-derived value is subtracted regardless of the operator (so
`Time − negative-duration` also subtracts); `"11:40 - 10 minute"`
evaluates to `Time(11:30:00)`. -/
theorem C5_time_duration_semantics :
    (∀ (t : Nat) (d : Int),
      (0 ≤ d →
        calculate_time '+' (.Time t) (.Duration d)
            = .ok (.Time (timeAddSeconds t ((duration_to_time d : Nat) : Int))) ∧
        calculate_time '-' (.Time t) (.Duration d)
            = .ok (.Time (timeAddSeconds t (-((duration_to_time d : Nat) : Int))))) ∧
      (d < 0 →
        calculate_time '+' (.Time t) (.Duration d)
            = .ok (.Time (timeAddSeconds t (-((duration_to_time d : Nat) : Int)))) ∧
        calculate_time '-' (.Time t) (.Duration d)
            = .ok (.Time (timeAddSeconds t (-((duration_to_time d : Nat) : Int)))))) ∧
    calculate_time '-' (.Time 42000) (.Duration 600) = .ok (.Time 41400) := by
  constructor
  · intro t d
    constructor
    · intro h
      have hd : decide (d < 0) = false := decide_eq_false (not_lt.mpr h)
      constructor <;> simp [calculate_time, get_times, hd]
    · intro h
      have hd : decide (d < 0) = true := decide_eq_true h
      constructor <;> simp [calculate_time, get_times, hd]
  · rfl

/-- C5 witness: the amended statement applied at `11:40` and the
durations `+600` and `-600` seconds. -/
theorem C5_time_duration_semantics_witness :
    calculate_time '-' (.Time 42000) (.Duration 600)
        = .ok (.Time (timeAddSeconds 42000 (-((duration_to_time 600 : Nat) : Int)))) ∧
    calculate_time '-' (.Time 42000) (.Duration (-600))
        = .ok (.Time (timeAddSeconds 42000 (-((duration_to_time (-600) : Nat) : Int)))) :=
  ⟨((C5_time_duration_semantics.1 42000 600).1 (by decide)).2,
   ((C5_time_duration_semantics.1 42000 (-600)).2 (by decide)).2⟩

/-- C6: adding one month (`2592000` seconds) to 2021-11-15 makes
`calculate_date` pass month `(11 + 1) % 12 = 0` to
`NaiveDate::from_ymd`, which panics (embedded as `none`): the claimed
1–12 range and the unreachability of the construction failure are
violated. -/
theorem C6_date_month_zero_panic :
    calculate_date '+' (.Date ⟨2021, 11, 15⟩) (.Duration 2592000) = none ∧
    date_add_months ⟨2021, 11, 15⟩ 1 = none ∧
    (11 + 1) % 12 = 0 := by
  refine ⟨rfl, rfl, rfl⟩

/-- C10: a `Duration` read as a plain number contributes the count of the
largest unit fitting its absolute seconds — `|d|/YEAR` if at least a
year, else `(|d|/MONTH) % 30` if at least a month, else `|d|/DAY` if at
least a day, else `(|d|/HOUR) % 24`, else `(|d|/MINUTE) % 60`, else its
seconds — with the sign always discarded; `get_numbers` feeds this value
to the number fallback, and the money handler's fallback turns
`$25 * 14 hours` into `Money(350, usd)`. -/
theorem C10_duration_high_unit :
    (∀ d : Int, YEAR ≤ d.natAbs →
      get_high_duration_number d = d.natAbs / YEAR) ∧
    (∀ d : Int, d.natAbs < YEAR → MONTH ≤ d.natAbs →
      get_high_duration_number d = (d.natAbs / MONTH) % 30) ∧
    (∀ d : Int, d.natAbs < MONTH → DAY ≤ d.natAbs →
      get_high_duration_number d = d.natAbs / DAY) ∧
    (∀ d : Int, d.natAbs < DAY → HOUR ≤ d.natAbs →
      get_high_duration_number d = (d.natAbs / HOUR) % 24) ∧
    (∀ d : Int, d.natAbs < HOUR → MINUTE ≤ d.natAbs →
      get_high_duration_number d = (d.natAbs / MINUTE) % 60) ∧
    (∀ d : Int, d.natAbs < MINUTE → get_high_duration_number d = d.natAbs) ∧
    (∀ d : Int, get_high_duration_number (-d) = get_high_duration_number d) ∧
    (∀ (d : Int) (n : ℚ), get_numbers (.Duration d) (.Number (.fin n))
        = some (.fin (get_high_duration_number d : ℚ), .fin n)) ∧
    (∀ config : SmartCalcConfig,
      calculate_money config '*' (.Money (.fin 25) "usd") (.Duration (14 * 3600))
        = .ok (.Money (.fin 350) "usd")) := by
  have hday : DAY < MONTH := by norm_num [DAY, MONTH]
  have hhour : HOUR < DAY := by norm_num [HOUR, DAY]
  have hmin : MINUTE < HOUR := by norm_num [MINUTE, HOUR]
  have hmonth : MONTH < YEAR := by norm_num [MONTH, YEAR]
  refine ⟨?_, ?_, ?_, ?_, ?_, ?_, ?_, ?_, ?_⟩
  · intro d h; simp [get_high_duration_number, h]
  · intro d h1 h2
    simp [get_high_duration_number, Nat.not_le.mpr h1, h2]
  · intro d h1 h2
    simp [get_high_duration_number, Nat.not_le.mpr h1, h2,
      Nat.not_le.mpr (lt_trans h1 hmonth)]
  · intro d h1 h2
    simp [get_high_duration_number, Nat.not_le.mpr h1, h2,
      Nat.not_le.mpr (lt_trans h1 hday), Nat.not_le.mpr (lt_trans (lt_trans h1 hday) hmonth)]
  · intro d h1 h2
    simp [get_high_duration_number, Nat.not_le.mpr h1, h2,
      Nat.not_le.mpr (lt_trans h1 hhour), Nat.not_le.mpr (lt_trans (lt_trans h1 hhour) hday),
      Nat.not_le.mpr (lt_trans (lt_trans (lt_trans h1 hhour) hday) hmonth)]
  · intro d h1
    simp [get_high_duration_number, Nat.not_le.mpr h1,
      Nat.not_le.mpr (lt_trans h1 hmin), Nat.not_le.mpr (lt_trans (lt_trans h1 hmin) hhour),
      Nat.not_le.mpr (lt_trans (lt_trans (lt_trans h1 hmin) hhour) hday),
      Nat.not_le.mpr (lt_trans (lt_trans (lt_trans (lt_trans h1 hmin) hhour) hday) hmonth)]
  · intro d; simp [get_high_duration_number]
  · intro d n; simp [get_numbers]
  · intro config
    have h14 : get_high_duration_number ((50400 : Int)) = 14 := by
      norm_num [get_high_duration_number, MINUTE, HOUR, DAY, MONTH, YEAR]
    simp [calculate_money, detect_target_currency, get_first_percent, get_moneys,
      get_numbers, h14, FP.mul]
    norm_num [h14]

/-- C10 witness: the ladder applied to a 14-hour duration, whose numeric
value is `(50400 / HOUR) % 24 = 14`, not its total seconds. -/
theorem C10_duration_high_unit_witness :
    get_high_duration_number (14 * 3600 : Int) = ((14 * 3600 : Int).natAbs / HOUR) % 24 :=
  (C10_duration_high_unit.2.2.2.1 (14 * 3600)
    (by norm_num [DAY]) (by norm_num [HOUR]))

/-- C4: the target currency of a money operation is the right operand's
currency whenever the right operand (after one variable dereference) is
money, and otherwise the left operand's; and when both operands are
money, the left price is first run through the FX conversion into the
right currency and the operator is then applied to the two prices, the
result carrying the right operand's currency. -/
theorem C4_money_currency_selection :
    (∀ (config : SmartCalcConfig) (lp rp : FP) (lc rc : String),
      calculate_money config '+' (.Money lp lc) (.Money rp rc)
          = .ok (.Money ((convert_currency config ⟨lp, lc⟩ ⟨rp, rc⟩).add rp) rc) ∧
      calculate_money config '-' (.Money lp lc) (.Money rp rc)
          = .ok (.Money ((convert_currency config ⟨lp, lc⟩ ⟨rp, rc⟩).sub rp) rc) ∧
      calculate_money config '*' (.Money lp lc) (.Money rp rc)
          = .ok (.Money ((convert_currency config ⟨lp, lc⟩ ⟨rp, rc⟩).mul rp) rc) ∧
      calculate_money config '/' (.Money lp lc) (.Money rp rc)
          = .ok (.Money (do_divition (convert_currency config ⟨lp, lc⟩ ⟨rp, rc⟩) rp) rc)) ∧
    (∀ (l : BramaAstType) (rp : FP) (rc : String),
      detect_target_currency l (.Money rp rc) = some rc ∧
      detect_target_currency l (.Variable (.Money rp rc)) = some rc) ∧
    (∀ (lp : FP) (lc : String) (r : BramaAstType),
      (∀ (p : FP) (c : String), r ≠ .Money p c) →
      (∀ (p : FP) (c : String), r ≠ .Variable (.Money p c)) →
      detect_target_currency (.Money lp lc) r = some lc ∧
      detect_target_currency (.Variable (.Money lp lc)) r = some lc) := by
  refine ⟨?_, ?_, ?_⟩
  · intro config lp rp lc rc
    refine ⟨?_, ?_, ?_, ?_⟩ <;>
      simp [calculate_money, detect_target_currency, get_first_percent, get_moneys]
  · intro l rp rc
    constructor <;> (cases l <;> simp [detect_target_currency]) <;>
      (rename_i data; cases data <;> simp [detect_target_currency])
  · intro lp lc r h1 h2
    constructor <;>
    · cases r with
      | Money p c => exact absurd rfl (h1 p c)
      | Variable data =>
        cases data with
        | Money p c => exact absurd rfl (h2 p c)
        | _ => simp [detect_target_currency]
      | _ => simp [detect_target_currency]

/-- C4 witness: the fallback clause applied to `$5 + 1`, whose right
operand is not money, so the left currency is kept. -/
theorem C4_money_currency_selection_witness :
    detect_target_currency (.Money (.fin 5) "usd") (.Number (.fin 1)) = some "usd" :=
  (C4_money_currency_selection.2.2 (.fin 5) "usd" (.Number (.fin 1))
    (by intro p c h; cases h) (by intro p c h; cases h)).1

section ListHelpers

lemma insertIdx_eq_take_cons_drop {α : Type} (a : α) :
    ∀ (n : Nat) (l : List α), n ≤ l.length →
      l.insertIdx n a = l.take n ++ a :: l.drop n := by
  intro n
  induction n with
  | zero => intro l _; simp
  | succ n ih =>
    intro l h
    cases l with
    | nil => simp at h
    | cons x xs =>
      simp only [List.insertIdx_succ_cons, List.take_succ_cons, List.drop_succ_cons,
        List.cons_append]
      rw [ih xs (by simpa using h)]

lemma getElem?_insertIdx_of_lt {α : Type} (a : α) (l : List α) (n i : Nat)
    (hn : n ≤ l.length) (hi : i < n) : (l.insertIdx n a)[i]? = l[i]? := by
  rw [insertIdx_eq_take_cons_drop a n l hn,
    List.getElem?_append_left (by simp [Nat.min_eq_left hn]; omega),
    List.getElem?_take]
  simp [hi]

lemma getLast?_cons_of_ne_nil {α : Type} (a : α) {l : List α} (h : l ≠ []) :
    (a :: l).getLast? = l.getLast? := by
  obtain ⟨b, t, rfl⟩ := List.exists_cons_of_ne_nil h
  exact List.getLast?_cons_cons

lemma getLast?_append_of_ne_nil {α : Type} (A : List α) {B : List α} (h : B ≠ []) :
    (A ++ B).getLast? = B.getLast? := by
  rw [List.getLast?_append]
  cases hB : B.getLast? with
  | none => exact absurd (List.getLast?_eq_none_iff.mp hB) h
  | some b => rfl

lemma getLast?_drop_of_ne_nil {α : Type} (n : Nat) (l : List α)
    (h : l.drop n ≠ []) : (l.drop n).getLast? = l.getLast? := by
  conv_rhs => rw [← List.take_append_drop n l]
  rw [getLast?_append_of_ne_nil _ h]

end ListHelpers

section AdderLoopLemmas

lemma adder_loop_ne_nil : ∀ {l : List Token}, l ≠ [] → adder_loop l ≠ [] := by
  intro l h
  cases l with
  | nil => exact absurd rfl h
  | cons t rest =>
    cases rest with
    | nil => by_cases hop : isOperator t.token <;> simp [adder_loop, hop]
    | cons u r2 => by_cases hop : isOperator t.token <;> simp [adder_loop, hop]

lemma adder_loop_getLast? : ∀ (l : List Token), l ≠ [] →
    (adder_loop l).getLast? = l.getLast? := by
  intro l
  induction l using adder_loop.induct with
  | case1 => intro h; exact absurd rfl h
  | case2 t hop => intro _; simp [adder_loop, hop]
  | case3 t hop => intro _; simp [adder_loop, hop]
  | case4 t u rest2 hop ih =>
    intro _
    cases hr : rest2 with
    | nil => simp [adder_loop, hop]
    | cons a b =>
      have hne : rest2 ≠ [] := by simp [hr]
      subst hr
      rw [show adder_loop (t :: u :: a :: b) = t :: u :: adder_loop (a :: b) by
            simp [adder_loop, hop],
        List.getLast?_cons_cons,
        getLast?_cons_of_ne_nil u (adder_loop_ne_nil hne),
        ih hne, List.getLast?_cons_cons,
        getLast?_cons_of_ne_nil u hne]
  | case5 t u rest2 hop ih =>
    intro _
    have hne : (u :: rest2) ≠ [] := by simp
    rw [show adder_loop (t :: u :: rest2) = plusToken :: t :: adder_loop (u :: rest2) by
          simp [adder_loop, hop],
      List.getLast?_cons_cons,
      getLast?_cons_of_ne_nil t (adder_loop_ne_nil hne),
      ih hne, getLast?_cons_of_ne_nil t hne]

end AdderLoopLemmas

section MissingTokenAdderLemmas

lemma take_len_succ_append {α : Type} (A : List α) (z : α) (X : List α) :
    (A ++ z :: X).take (A.length + 1) = A ++ [z] := by
  rw [List.take_append_eq_append_take, List.take_of_length_le (Nat.le_succ _)]
  simp

lemma drop_len_succ_append {α : Type} (A : List α) (z : α) (X : List α) :
    (A ++ z :: X).drop (A.length + 1) = X := by
  rw [List.drop_append_eq_append_drop, List.drop_eq_nil_of_le (Nat.le_succ _)]
  simp

lemma insertIdx_append_singleton {α : Type} (B : List α) (z a : α) :
    (B ++ [a]).insertIdx B.length z = B ++ [z, a] := by
  rw [insertIdx_eq_take_cons_drop _ _ _ (by simp), List.take_left, List.drop_left]

end MissingTokenAdderLemmas

/-- C9 counterexample: on `[Number(5), Operator('+')]` the adder inserts
`Number(0)` at position `len − 1`, i.e. *before* the trailing operator,
so the normalized list still ends with an operator — against the claim
that `Number(0)` is appended after it and that the result never ends
with an operator. -/
theorem C9_trailing_operator_counterexample :
    missing_token_adder
        [⟨0, 1, .Number (.fin 5), false⟩, ⟨2, 3, .Operator '+', false⟩]
      = [⟨0, 1, .Number (.fin 5), false⟩, zeroToken, ⟨2, 3, .Operator '+', false⟩] ∧
    (missing_token_adder
        [⟨0, 1, .Number (.fin 5), false⟩, ⟨2, 3, .Operator '+', false⟩]).getLast?
      = some ⟨2, 3, .Operator '+', false⟩ ∧
    isOperator (TokenType.Operator '+') = true := by
  refine ⟨rfl, rfl, rfl⟩

/-- C9 amended: writing `index` for the position right after the first
`=` (`0` with no `=`), `missing_token_adder` leaves any list with
`length ≤ index + 1` unchanged (in particular a lone operator gets no
`Number(0)`); otherwise, when the token at `index` is an operator, a
`Number(0)` is inserted immediately before it, and when the last token
is an operator, a `Number(0)` is inserted immediately *before* that
operator, which therefore stays last. -/
theorem C9_zero_insertion :
    (∀ tokens : List Token,
      tokens = [] ∨ tokens.length ≤ eqIndex tokens + 1 →
      missing_token_adder tokens = tokens) ∧
    (∀ (tokens : List Token) (tok : Token),
      eqIndex tokens + 1 < tokens.length →
      tokens[eqIndex tokens]? = some tok →
      isOperator tok.token = true →
      (missing_token_adder tokens)[eqIndex tokens]? = some zeroToken ∧
      (missing_token_adder tokens)[eqIndex tokens + 1]? = some tok) ∧
    (∀ (tokens : List Token) (tl : Token),
      eqIndex tokens + 1 < tokens.length →
      tokens.getLast? = some tl →
      isOperator tl.token = true →
      ∃ pre, missing_token_adder tokens = pre ++ [zeroToken, tl]) := by
  refine ⟨?_, ?_, ?_⟩
  · -- guard cases: the function bails out
    intro tokens h
    rcases h with h | h
    · subst h; rfl
    · by_cases h0 : tokens.length = 0
      · simp only [missing_token_adder, h0, if_true]
      · simp only [missing_token_adder, h0, if_false, if_pos h]
  · -- leading-operator insertion
    intro tokens tok hlt hget hop
    have hidx : eqIndex tokens < tokens.length := Nat.lt_of_succ_lt hlt
    obtain ⟨hidx2, hgetE⟩ := List.getElem?_eq_some_iff.mp hget
    have hdropidx : tokens.drop (eqIndex tokens) = tok :: tokens.drop (eqIndex tokens + 1) := by
      rw [List.drop_eq_getElem_cons hidx, hgetE]
    have hCne : tokens.drop (eqIndex tokens + 1) ≠ [] := by
      rw [Ne, List.drop_eq_nil_iff]; omega
    obtain ⟨u, rest2, hC⟩ := List.exists_cons_of_ne_nil hCne
    have hAlen : (tokens.take (eqIndex tokens)).length = eqIndex tokens := by
      simp [List.length_take, Nat.min_eq_left hidx.le]
    have htokens1 : tokens.insertIdx (eqIndex tokens) zeroToken
        = tokens.take (eqIndex tokens) ++ zeroToken :: tok :: u :: rest2 := by
      rw [insertIdx_eq_take_cons_drop _ _ _ hidx.le, hdropidx, hC]
    have hT2 :
        (tokens.insertIdx (eqIndex tokens) zeroToken).take (eqIndex tokens + 1) ++
          adder_loop ((tokens.insertIdx (eqIndex tokens) zeroToken).drop (eqIndex tokens + 1))
        = (tokens.take (eqIndex tokens) ++ [zeroToken]) ++ tok :: u :: adder_loop rest2 := by
      rw [htokens1]
      rw [show eqIndex tokens + 1 = (tokens.take (eqIndex tokens)).length + 1 by rw [hAlen]]
      rw [take_len_succ_append, drop_len_succ_append]
      rw [show adder_loop (tok :: u :: rest2) = tok :: u :: adder_loop rest2 by
            simp [adder_loop, hop]]
    have hz : ((tokens.take (eqIndex tokens) ++ [zeroToken]) ++
        tok :: u :: adder_loop rest2)[eqIndex tokens]? = some zeroToken := by
      rw [List.getElem?_append_left (by simp [hAlen]),
        List.getElem?_append_right (by omega), hAlen]
      simp
    have htk : ((tokens.take (eqIndex tokens) ++ [zeroToken]) ++
        tok :: u :: adder_loop rest2)[eqIndex tokens + 1]? = some tok := by
      rw [List.getElem?_append_right (by simp [hAlen])]
      simp [hAlen]
    have hT2len : ((tokens.take (eqIndex tokens) ++ [zeroToken]) ++
        tok :: u :: adder_loop rest2).length
        = eqIndex tokens + 3 + (adder_loop rest2).length := by
      simp [hAlen]; omega
    simp only [missing_token_adder]
    rw [if_neg (by omega), if_neg (by omega), hget]
    simp only [hop, if_true]
    rw [hT2]
    cases hL : ((tokens.take (eqIndex tokens) ++ [zeroToken]) ++
        tok :: u :: adder_loop rest2).getLast? with
    | none => exact ⟨hz, htk⟩
    | some t =>
      by_cases h2 : isOperator t.token
      · simp only [h2, if_true]
        constructor
        · rw [getElem?_insertIdx_of_lt _ _ _ _ (by omega) (by omega)]
          exact hz
        · rw [getElem?_insertIdx_of_lt _ _ _ _ (by omega) (by omega)]
          exact htk
      · simp only [h2, if_false]
        exact ⟨hz, htk⟩
  · -- trailing-operator insertion
    intro tokens tl hlt hlast hop
    have hidx : eqIndex tokens < tokens.length := Nat.lt_of_succ_lt hlt
    have hdropne : tokens.drop (eqIndex tokens) ≠ [] := by
      rw [Ne, List.drop_eq_nil_iff]; omega
    have htokne : tokens ≠ [] := by
      intro h; rw [h] at hidx; simp at hidx
    -- the possibly zero-padded front
    obtain ⟨t0, ht0⟩ : ∃ t0, tokens[eqIndex tokens]? = some t0 := by
      cases h : tokens[eqIndex tokens]? with
      | some t => exact ⟨t, rfl⟩
      | none =>
        have hlen := List.getElem?_eq_none_iff.mp h
        omega
    set tokens1 : List Token :=
      (match tokens[eqIndex tokens]? with
       | some t => if isOperator t.token then tokens.insertIdx (eqIndex tokens) zeroToken
                   else tokens
       | none => tokens) with htokens1def
    have hlast1 : tokens1.getLast? = some tl := by
      rw [htokens1def, ht0]
      by_cases hop0 : isOperator t0.token
      · simp only [hop0, if_true]
        rw [insertIdx_eq_take_cons_drop _ _ _ hidx.le,
          getLast?_append_of_ne_nil _ (by simp),
          getLast?_cons_of_ne_nil _ hdropne,
          getLast?_drop_of_ne_nil _ _ hdropne]
        exact hlast
      · simp only [hop0, if_false]
        exact hlast
    have hlen1 : tokens.length ≤ tokens1.length := by
      rw [htokens1def, ht0]
      by_cases hop0 : isOperator t0.token
      · simp only [hop0, if_true]
        rw [List.length_insertIdx _ _ hidx.le]
        omega
      · simp [hop0]
    have hdrop1ne : tokens1.drop (eqIndex tokens + 1) ≠ [] := by
      rw [Ne, List.drop_eq_nil_iff]; omega
    have hlast2 :
        (tokens1.take (eqIndex tokens + 1) ++
          adder_loop (tokens1.drop (eqIndex tokens + 1))).getLast? = some tl := by
      rw [getLast?_append_of_ne_nil _ (adder_loop_ne_nil hdrop1ne),
        adder_loop_getLast? _ hdrop1ne,
        getLast?_drop_of_ne_nil _ _ hdrop1ne]
      exact hlast1
    obtain ⟨B, hB⟩ := List.getLast?_eq_some_iff.mp hlast2
    refine ⟨B, ?_⟩
    simp only [missing_token_adder]
    rw [if_neg (by omega), if_neg (by omega), ← htokens1def, hB]
    simp only [List.getLast?_append, List.getLast?_singleton, Option.or_some]
    simp only [hop, if_true]
    rw [show (B ++ [tl]).length - 1 = B.length by simp]
    exact insertIdx_append_singleton B zeroToken tl

/-- C9 witness: the amended statement applied to the assignment-free list
`[Operator('+'), Number(5), Operator('*')]`: `Number(0)` appears before
the leading operator; and to `[Number(5), Operator('+')]`: `Number(0)`
appears immediately before the trailing operator. -/
theorem C9_zero_insertion_witness :
    ((missing_token_adder
        [⟨0, 1, .Operator '+', false⟩, ⟨2, 3, .Number (.fin 5), false⟩,
         ⟨4, 5, .Operator '*', false⟩])[eqIndex
            [⟨0, 1, .Operator '+', false⟩, ⟨2, 3, .Number (.fin 5), false⟩,
             ⟨4, 5, .Operator '*', false⟩]]? = some zeroToken) ∧
    (∃ pre, missing_token_adder
        [⟨0, 1, .Number (.fin 5), false⟩, ⟨2, 3, .Operator '+', false⟩]
      = pre ++ [zeroToken, ⟨2, 3, .Operator '+', false⟩]) :=
  ⟨(C9_zero_insertion.2.1
      [⟨0, 1, .Operator '+', false⟩, ⟨2, 3, .Number (.fin 5), false⟩,
       ⟨4, 5, .Operator '*', false⟩]
      ⟨0, 1, .Operator '+', false⟩ (by decide) (by decide) (by decide)).1,
   C9_zero_insertion.2.2
      [⟨0, 1, .Number (.fin 5), false⟩, ⟨2, 3, .Operator '+', false⟩]
      ⟨2, 3, .Operator '+', false⟩ (by decide) (by decide) (by decide)⟩

section TokenLocationLemmas

lemma span_ok_symm {a b : TokenLocation} (h : span_ok a b) : span_ok b a := by
  unfold span_ok at h ⊢
  tauto

lemma add_token_location_pairwise (locs : List TokenLocation)
    (start stop : Nat) (tt : Option TokenType) (text : String)
    (hp : List.Pairwise span_ok locs) :
    List.Pairwise span_ok (add_token_location locs start stop tt text).2 := by
  unfold add_token_location
  by_cases hc : locs.any fun item =>
      (item.start ≤ start && start < item.stop) ||
      (item.start < stop && stop ≤ item.stop)
  · rw [if_pos hc]
    exact hp
  · rw [if_neg hc]
    rw [List.pairwise_append]
    refine ⟨hp, List.pairwise_singleton _ _, ?_⟩
    intro a ha b hb
    simp only [List.mem_singleton] at hb
    subst hb
    simp only [List.any_eq_true, not_exists, not_and] at hc
    have := hc a ha
    simp only [Bool.or_eq_true, Bool.and_eq_true, decide_eq_true_eq, not_or, not_and] at this
    unfold span_ok
    simp only []
    omega

lemma foldl_insertions_pairwise (reqs : List (Nat × Nat × Option TokenType × String)) :
    ∀ locs, List.Pairwise span_ok locs →
      List.Pairwise span_ok (reqs.foldl
        (fun locs r => (add_token_location locs r.1 r.2.1 r.2.2.1 r.2.2.2).2) locs) := by
  induction reqs with
  | nil => intro locs h; exact h
  | cons r rs ih =>
    intro locs h
    exact ih _ (add_token_location_pairwise _ _ _ _ _ h)

end TokenLocationLemmas

/-- C8 counterexample: inserting the span `[2,3)` and then `[0,5)` are
both accepted by the collision rule (neither endpoint of `[0,5)` is
covered by `[2,3)`), yet after the retain-and-sort step the two retained
spans overlap — `[0,5)` strictly contains `[2,3)` — refuting the claimed
pairwise non-overlap. -/
theorem C8_containment_counterexample :
    (add_token_location [] 2 3 (some (.Text "a")) "a").1 = true ∧
    (add_token_location (add_token_location [] 2 3 (some (.Text "a")) "a").2
        0 5 (some (.Text "b")) "b").1 = true ∧
    tokinize_finalize
        (add_token_location (add_token_location [] 2 3 (some (.Text "a")) "a").2
          0 5 (some (.Text "b")) "b").2
      = [⟨0, 5, some (.Text "b"), "b", .Active⟩, ⟨2, 3, some (.Text "a"), "a", .Active⟩] ∧
    ¬((5 : Nat) ≤ 2 ∨ (3 : Nat) ≤ 0) := by
  refine ⟨rfl, rfl, rfl, by decide⟩

/-- C8 amended: an insertion is accepted exactly when no stored span
covers either endpoint of the new span; after tokenization the retained
spans are sorted by start, and any two of them are either disjoint or in
strict containment (the claimed full non-overlap fails only for strict
containment, as the counterexample shows). -/
theorem C8_insertion_invariants :
    (∀ (locs : List TokenLocation) (start stop : Nat) (tt : Option TokenType)
        (text : String),
      (add_token_location locs start stop tt text).1 = true ↔
        ∀ item ∈ locs, ¬(item.start ≤ start ∧ start < item.stop) ∧
          ¬(item.start < stop ∧ stop ≤ item.stop)) ∧
    (∀ reqs : List (Nat × Nat × Option TokenType × String),
      List.Sorted startLE (tokinize_finalize (run_insertions reqs))) ∧
    (∀ reqs : List (Nat × Nat × Option TokenType × String),
      List.Pairwise span_ok (tokinize_finalize (run_insertions reqs))) := by
  refine ⟨?_, ?_, ?_⟩
  · intro locs start stop tt text
    unfold add_token_location
    by_cases hc : locs.any fun item =>
        (item.start ≤ start && start < item.stop) ||
        (item.start < stop && stop ≤ item.stop)
    · rw [if_pos hc]
      constructor
      · intro h; exact absurd h (by simp)
      · intro hall
        exfalso
        simp only [List.any_eq_true, Bool.or_eq_true, Bool.and_eq_true,
          decide_eq_true_eq] at hc
        obtain ⟨item, hmem, hcond⟩ := hc
        have := hall item hmem
        tauto
    · rw [if_neg hc]
      simp only [true_iff]
      intro item hmem
      simp only [List.any_eq_true, not_exists, not_and] at hc
      have := hc item hmem
      simp only [Bool.or_eq_true, Bool.and_eq_true, decide_eq_true_eq, not_or,
        not_and] at this
      omega
  · intro reqs
    exact List.sorted_insertionSort startLE _
  · intro reqs
    have hp : List.Pairwise span_ok (run_insertions reqs) :=
      foldl_insertions_pairwise reqs [] (List.Pairwise.nil)
    have hf : List.Pairwise span_ok ((run_insertions reqs).filter
        (fun x => x.token_type.isSome)) :=
      hp.filter _
    unfold tokinize_finalize
    exact ((List.perm_insertionSort startLE _).pairwise_iff
      (fun h => span_ok_symm h)).mpr hf

section ExecuteLemmas

lemma line_outcome_lengths (p : Pipeline) (text : String) :
    (line_outcome p text).1.length = (if parse_fails p text = true then 0 else 1) ∧
    (line_outcome p text).2.length = (if parse_fails p text = true then 0 else 1) := by
  unfold line_outcome parse_fails
  by_cases h0 : (p.prepare text).length = 0
  · simp [h0]
  · simp only [h0, if_false]
    cases htok : p.tokinize (p.prepare text) with
    | error e => simp [htok]
    | ok tokens =>
      cases hp : p.parse (missing_token_adder (token_cleaner (p.process
          (p.update_for_variable tokens)))) with
      | error e => simp [htok, hp]
      | ok ast =>
        cases hi : p.interpret ast with
        | ok r => simp [htok, hp, hi]
        | error e => simp [htok, hp, hi]

end ExecuteLemmas

/-- C2 counterexample: a pipeline whose parser always fails, run on the
single nonempty line `"8 / (45 - 20%"`: `execute` pushes no result and
stores no AST for the line (the parse error is only printed), so one
line yields zero results and zero stored ASTs, not one of each. -/
theorem C2_parse_error_drops_line :
    (execute
      { prepare := fun s => s
        tokinize := fun _ => .ok []
        update_for_variable := fun t => t
        process := fun t => t
        parse := fun _ => .error "Syntax error"
        interpret := fun a => .ok a }
      ["8 / (45 - 20%"]).1.length = 0 ∧
    (execute
      { prepare := fun s => s
        tokinize := fun _ => .ok []
        update_for_variable := fun t => t
        process := fun t => t
        parse := fun _ => .error "Syntax error"
        interpret := fun a => .ok a }
      ["8 / (45 - 20%"]).2.length = 0 ∧
    (["8 / (45 - 20%"] : List String).length = 1 := by
  refine ⟨rfl, rfl, rfl⟩

/-- C2 amended: `execute` yields results and stored ASTs in line order,
one of each for every line *except* lines whose parse fails, which
contribute neither (the error is only printed); an empty prepared line
yields `Ok(([], None))` with a stored `None`, a tokenizer error yields
that error with a stored `None`, and an interpreter error yields that
error with the parsed AST stored, so both counts equal the number of
lines minus the number of parse-failing lines. -/
theorem C2_per_line_contract :
    (∀ (p : Pipeline) (lines : List String),
      (execute p lines).1.length
          = (lines.filter (fun l => ! parse_fails p l)).length ∧
      (execute p lines).2.length
          = (lines.filter (fun l => ! parse_fails p l)).length) ∧
    (∀ (p : Pipeline) (text : String),
      (p.prepare text).length = 0 →
      line_outcome p text = ([.ok ([], .None)], [.None])) ∧
    (∀ (p : Pipeline) (text e : String),
      (p.prepare text).length ≠ 0 →
      p.tokinize (p.prepare text) = .error e →
      line_outcome p text = ([.error e], [.None])) ∧
    (∀ (p : Pipeline) (text : String) (tokens : List Token) (e : String),
      (p.prepare text).length ≠ 0 →
      p.tokinize (p.prepare text) = .ok tokens →
      p.parse (missing_token_adder (token_cleaner (p.process
        (p.update_for_variable tokens)))) = .error e →
      line_outcome p text = ([], [])) ∧
    (∀ (p : Pipeline) (text : String) (tokens : List Token)
        (ast : BramaAstType) (e : String),
      (p.prepare text).length ≠ 0 →
      p.tokinize (p.prepare text) = .ok tokens →
      p.parse (missing_token_adder (token_cleaner (p.process
        (p.update_for_variable tokens)))) = .ok ast →
      p.interpret ast = .error e →
      line_outcome p text = ([.error e], [ast])) := by
  refine ⟨?_, ?_, ?_, ?_, ?_⟩
  · intro p lines
    induction lines with
    | nil => exact ⟨rfl, rfl⟩
    | cons text rest ih =>
      have hl := line_outcome_lengths p text
      obtain ⟨ih1, ih2⟩ := ih
      by_cases hpf : parse_fails p text = true
      · have hl1 : (line_outcome p text).1.length = 0 := by rw [hl.1, if_pos hpf]
        have hl2 : (line_outcome p text).2.length = 0 := by rw [hl.2, if_pos hpf]
        refine ⟨?_, ?_⟩ <;>
          simp only [execute, List.length_append, List.filter_cons, hpf,
            Bool.not_true, Bool.false_eq_true, if_false, hl1, hl2, ih1, ih2,
            Nat.zero_add]
      · have hf : parse_fails p text = false := eq_false_of_ne_true hpf
        have hl1 : (line_outcome p text).1.length = 1 := by rw [hl.1, if_neg hpf]
        have hl2 : (line_outcome p text).2.length = 1 := by rw [hl.2, if_neg hpf]
        refine ⟨?_, ?_⟩ <;>
        · simp only [execute, List.length_append, List.filter_cons, hf,
            Bool.not_false, if_true, hl1, hl2, ih1, ih2, List.length_cons]
          omega
  · intro p text h0
    simp [line_outcome, h0]
  · intro p text e h0 htok
    simp [line_outcome, h0, htok]
  · intro p text tokens e h0 htok hp
    simp [line_outcome, h0, htok, hp]
  · intro p text tokens ast e h0 htok hp hi
    simp [line_outcome, h0, htok, hp, hi]

/-- C2 witness: the amended per-line facts at concrete inputs — an empty
line yields `Ok(([], None))` with a stored `None`, and a parse-failing
line contributes nothing. -/
theorem C2_per_line_contract_witness :
    line_outcome
      { prepare := fun s => s
        tokinize := fun _ => .ok []
        update_for_variable := fun t => t
        process := fun t => t
        parse := fun _ => .error "Syntax error"
        interpret := fun a => .ok a } ""
      = ([.ok ([], .None)], [.None]) ∧
    line_outcome
      { prepare := fun s => s
        tokinize := fun _ => .ok []
        update_for_variable := fun t => t
        process := fun t => t
        parse := fun _ => .error "Syntax error"
        interpret := fun a => .ok a } "x"
      = ([], []) :=
  ⟨C2_per_line_contract.2.1 _ "" rfl,
   C2_per_line_contract.2.2.2.1 _ "x" [] "Syntax error" (by decide) rfl rfl⟩

section RuleEngineLemmas

lemma countActiveIn_of_le : ∀ (locs : List TokenLocation) (s t : Nat), t ≤ s →
    countActiveIn locs s t = 0 := by
  intro locs
  induction locs with
  | nil => intro s t _; rfl
  | cons l ls ih =>
    intro s t h
    have hhead : ¬(s = 0 ∧ 0 < t ∧ l.status = .Active) := by
      rintro ⟨rfl, ht, -⟩; omega
    simp only [countActiveIn, if_neg hhead, ih (s - 1) (t - 1) (by omega), Nat.zero_add]

lemma countActive_cons (l : TokenLocation) (ls : List TokenLocation) :
    countActive (l :: ls) = countActive ls + (if l.status = .Active then 1 else 0) := by
  simp [countActive, List.countP_cons]

lemma countActiveIn_cons (l : TokenLocation) (ls : List TokenLocation) (s t : Nat) :
    countActiveIn (l :: ls) s t
      = (if s = 0 ∧ 0 < t ∧ l.status = .Active then 1 else 0)
        + countActiveIn ls (s - 1) (t - 1) := rfl

lemma countActiveIn_succ : ∀ (locs : List TokenLocation) (s t : Nat) (tok : TokenLocation),
    locs[t]? = some tok → s ≤ t →
    countActiveIn locs s (t + 1)
      = countActiveIn locs s t + (if tok.status = .Active then 1 else 0) := by
  intro locs
  induction locs with
  | nil => intro s t tok hget _; simp at hget
  | cons l ls ih =>
    intro s t tok hget hst
    cases t with
    | zero =>
      have hs : s = 0 := Nat.le_zero.mp hst
      subst hs
      rw [List.getElem?_cons_zero] at hget
      obtain rfl : l = tok := Option.some.inj hget
      simp only [countActiveIn_cons, countActiveIn_of_le ls 0 0 le_rfl]
      by_cases ha : l.status = .Active <;> simp [ha]
    | succ t2 =>
      rw [List.getElem?_cons_succ] at hget
      have h1 : (0 : Nat) < t2 + 1 + 1 := by omega
      have h2 : (0 : Nat) < t2 + 1 := by omega
      simp only [countActiveIn_cons, Nat.add_sub_cancel, h1, h2, true_and]
      rw [ih (s - 1) t2 tok hget (by omega)]
      omega

lemma countActive_mark_range : ∀ (locs : List TokenLocation) (s t : Nat),
    countActive (mark_range locs s t) + countActiveIn locs s t = countActive locs := by
  intro locs
  induction locs with
  | nil => intro s t; rfl
  | cons l ls ih =>
    intro s t
    by_cases hs : s = 0
    · subst hs
      by_cases ht : 0 < t
      · rw [show mark_range (l :: ls) 0 t
              = ({ l with status := .Removed }) :: mark_range ls 0 (t - 1) from by
            simp [mark_range, ht],
          countActive_cons, countActive_cons, countActiveIn_cons]
        have hm := ih 0 (t - 1)
        simp only [true_and, ht, Nat.sub_zero]
        by_cases ha : l.status = .Active <;> simp [ha] <;> omega
      · have ht0 : t = 0 := by omega
        subst ht0
        rw [show mark_range (l :: ls) 0 0 = l :: mark_range ls 0 0 from by
            simp [mark_range],
          countActive_cons, countActive_cons, countActiveIn_cons]
        have hm := ih 0 0
        rw [countActiveIn_of_le ls 0 0 le_rfl] at hm
        simp only [Nat.zero_sub, Nat.lt_irrefl, false_and, and_false, if_false,
          countActiveIn_of_le ls 0 0 le_rfl]
        omega
    · rw [show mark_range (l :: ls) s t = l :: mark_range ls (s - 1) (t - 1) from by
          simp [mark_range, hs],
        countActive_cons, countActive_cons, countActiveIn_cons]
      have hm := ih (s - 1) (t - 1)
      simp only [hs, false_and, if_false]
      omega

lemma length_mark_range : ∀ (locs : List TokenLocation) (s t : Nat),
    (mark_range locs s t).length = locs.length := by
  intro locs
  induction locs with
  | nil => intro s t; rfl
  | cons l ls ih =>
    intro s t
    by_cases hs : s = 0 <;> simp [mark_range, hs, ih]

lemma countActive_insertIdx : ∀ (i : Nat) (locs : List TokenLocation)
    (loc : TokenLocation), i ≤ locs.length →
    countActive (locs.insertIdx i loc)
      = countActive locs + (if loc.status = .Active then 1 else 0) := by
  intro i
  induction i with
  | zero =>
    intro locs loc _
    simp only [List.insertIdx_zero, countActive, List.countP_cons]
    by_cases ha : loc.status = .Active <;> simp [ha]
  | succ i ih =>
    intro locs loc h
    cases locs with
    | nil => simp at h
    | cons x xs =>
      simp only [List.insertIdx_succ_cons, countActive, List.countP_cons]
      rw [show List.countP (fun l => decide (l.status = TokenLocationStatus.Active))
            (xs.insertIdx i loc) = countActive (xs.insertIdx i loc) from rfl,
        ih xs loc (by simpa using h)]
      simp only [countActive]
      omega

lemma match_loop_sound (pattern : List RuleTok) (locs : List TokenLocation)
    (hAll : ∀ l ∈ locs, l.token_type.isSome = true) :
    ∀ (rest : List TokenLocation) (target ruleIdx startIdx s t : Nat),
      rest = locs.drop target →
      startIdx ≤ target →
      countActiveIn locs startIdx target = ruleIdx →
      match_loop pattern rest target ruleIdx startIdx = some (s, t) →
      s ≤ t ∧ t ≤ locs.length ∧ countActiveIn locs s t = pattern.length := by
  intro rest
  induction rest with
  | nil =>
    intro target ruleIdx startIdx s t _ _ _ hml
    simp [match_loop] at hml
  | cons tok rest2 ih =>
    intro target ruleIdx startIdx s t hdrop hle hcount hml
    have hget : locs[target]? = some tok := by
      have h := List.getElem?_drop locs target 0
      rw [← hdrop] at h
      simpa using h.symm
    have htlen : target < locs.length := (List.getElem?_eq_some_iff.mp hget).1
    have hrest2 : rest2 = locs.drop (target + 1) := by
      have h := List.drop_drop 1 target locs
      rw [← hdrop] at h
      simpa using h
    simp only [match_loop] at hml
    by_cases hrem : tok.status = .Removed
    · rw [if_pos hrem] at hml
      refine ih (target + 1) ruleIdx startIdx s t hrest2 (by omega) ?_ hml
      rw [countActiveIn_succ locs startIdx target tok hget hle,
        if_neg (by rw [hrem]; intro h; cases h)]
      omega
    · rw [if_neg hrem] at hml
      have hactive : tok.status = .Active := by
        cases h : tok.status
        · rfl
        · exact absurd h hrem
      cases htt : tok.token_type with
      | none =>
        have hmem : tok ∈ locs := by
          obtain ⟨hl, he⟩ := List.getElem?_eq_some_iff.mp hget
          exact he ▸ locs.getElem_mem hl
        have := hAll tok hmem
        rw [htt] at this
        simp at this
      | some tt =>
        simp only [htt] at hml
        cases hpat : pattern.get? ruleIdx with
        | none =>
          simp only [hpat] at hml
          exact Option.noConfusion hml
        | some rt =>
          simp only [hpat] at hml
          by_cases hmatch : rt tok = true
          · rw [if_pos hmatch] at hml
            by_cases hcomp : pattern.length = ruleIdx + 1
            · rw [if_pos hcomp] at hml
              have h1 := Option.some.inj hml
              have hs : startIdx = s := congrArg Prod.fst h1
              have ht2 : target + 1 = t := congrArg Prod.snd h1
              subst hs; subst ht2
              refine ⟨by omega, by omega, ?_⟩
              rw [countActiveIn_succ locs startIdx target tok hget hle, if_pos hactive,
                hcount, hcomp]
            · rw [if_neg hcomp] at hml
              refine ih (target + 1) (ruleIdx + 1) startIdx s t hrest2 (by omega) ?_ hml
              rw [countActiveIn_succ locs startIdx target tok hget hle, if_pos hactive,
                hcount]
          · rw [if_neg hmatch] at hml
            exact ih (target + 1) 0 (target + 1) s t hrest2 le_rfl
              (countActiveIn_of_le locs (target + 1) (target + 1) le_rfl) hml

end RuleEngineLemmas

/-- C7 counterexample: a rule whose pattern has length one.  The matcher
fires on the single active `Number` location (span `[0,1)`), the firing
flags it `Removed` and inserts one new active location — and the number
of active locations is unchanged, refuting the claimed strict decrease
on every firing (with such a rule the fixed-point loop need not
terminate). -/
theorem C7_single_pattern_counterexample :
    try_rule [⟨0, 1, some (.Number (.fin 1)), "1", .Active⟩]
        [fun l => match l.token_type with
                  | some (TokenType.Number _) => true
                  | _ => false]
      = some (0, 1) ∧
    countActive (fire_rule [⟨0, 1, some (.Number (.fin 1)), "1", .Active⟩] 0 1
        (.Number (.fin 1)))
      = countActive [⟨0, 1, some (.Number (.fin 1)), "1", .Active⟩] := by
  exact ⟨rfl, rfl⟩

/-- C7 amended: when a rule pattern matches (every location carrying a
`token_type`, as they do after tokenization), the matched range contains
exactly `pattern.length` active locations; the firing flags them
`Removed` and inserts exactly one active location, so the active count
drops by `pattern.length − 1` — a strict decrease exactly when the
pattern has at least two tokens, while a one-token pattern leaves the
count unchanged, so only rule packs with patterns of length ≥ 2 make
every firing decrease the count and bound the number of passes. -/
theorem C7_firing_replaces_with_one :
    ∀ (locs : List TokenLocation) (pattern : List RuleTok) (s t : Nat)
      (newType : TokenType),
      (∀ l ∈ locs, l.token_type.isSome = true) →
      try_rule locs pattern = some (s, t) →
      countActiveIn locs s t = pattern.length ∧
      countActive (fire_rule locs s t newType) + pattern.length
          = countActive locs + 1 ∧
      (2 ≤ pattern.length → countActive (fire_rule locs s t newType) < countActive locs) := by
  intro locs pattern s t newType hAll htry
  obtain ⟨hst, htlen, hcnt⟩ := match_loop_sound pattern locs hAll locs 0 0 0 s t
    (by simp) (le_rfl) (countActiveIn_of_le locs 0 0 le_rfl) htry
  have hslen : s ≤ (mark_range locs s t).length := by
    rw [length_mark_range]; omega
  have hfire : countActive (fire_rule locs s t newType)
      = countActive (mark_range locs s t) + 1 := by
    unfold fire_rule
    rw [countActive_insertIdx s (mark_range locs s t) _ hslen]
    simp
  have hmark := countActive_mark_range locs s t
  refine ⟨hcnt, by omega, fun h2 => by omega⟩

/-- C7 witness: a two-token pattern over two active `Number` locations —
the matcher returns the range `[0,2)`, it contains two active locations,
and the firing strictly decreases the active count. -/
theorem C7_firing_replaces_with_one_witness :
    countActiveIn
        [⟨0, 1, some (.Number (.fin 1)), "1", .Active⟩,
         ⟨2, 3, some (.Number (.fin 2)), "2", .Active⟩] 0 2 = 2 ∧
    countActive (fire_rule
        [⟨0, 1, some (.Number (.fin 1)), "1", .Active⟩,
         ⟨2, 3, some (.Number (.fin 2)), "2", .Active⟩] 0 2 (.Number (.fin 3)))
      < countActive
        [⟨0, 1, some (.Number (.fin 1)), "1", .Active⟩,
         ⟨2, 3, some (.Number (.fin 2)), "2", .Active⟩] := by
  have h := C7_firing_replaces_with_one
    [⟨0, 1, some (.Number (.fin 1)), "1", .Active⟩,
     ⟨2, 3, some (.Number (.fin 2)), "2", .Active⟩]
    [fun l => match l.token_type with
              | some (TokenType.Number _) => true
              | _ => false,
     fun l => match l.token_type with
              | some (TokenType.Number _) => true
              | _ => false]
    0 2 (.Number (.fin 3)) (by decide) rfl
  exact ⟨h.1, h.2.2 (by decide)⟩
